import Mathlib

set_option maxRecDepth 10000

/-!
# Verification of the erassh backend core

A shallow embedding of the hash-chained ledger (`erash/backend/ledger.py`),
the wipe-job registry and simulated executor (`erash/backend/wipe_service.py`),
and the certificate generation flow (`erash/backend/app.py`,
`erash/backend/certificate.py`), together with theorems settling the stated
properties of those components.

Conventions of the embedding:
* Python dicts holding fixed fields become structures; the tagged payload
  dict (`genesis` vs `erasure_certificate`) becomes an inductive type.
* `hashlib.sha256(json.dumps(block_copy, sort_keys=True))` is modelled by an
  abstract digest parameter `H : BlockContent → String` applied to the block's
  content record (every field except `block_hash`).  The sorted-key canonical
  JSON makes the digest a function of exactly that field record, which is what
  `BlockContent` captures.  For concrete evaluation the theorems are
  instantiated with `encodeContent`, an injective executable encoding.
* `dict.get(key, default)` becomes `Option.getD` on an `Option`-typed field.
* File I/O: a ledger read that fails (missing/corrupt file) is modelled by
  passing `none : Option Ledger`; the caught-exception branches of the Python
  code are the `none` branches here.
* The `threading.Lock` critical sections execute atomically; each one is
  modelled as a pure state-passing function on the registry / block list.
* Python string processing is modelled over `List Char` (`String.data`) with
  structurally recursive helpers, so that everything evaluates inside the
  kernel.
-/

namespace Erash

/-! ## Character-list string helpers -/

/-- Suffix of `s` after the first occurrence of the pattern `pat`
(`none` when `pat` does not occur).  This is the `List Char` form of
Python's `s.split(pat)[1]` for a string containing a single occurrence of
`pat`, and `≠ none` is Python's `pat in s` (for nonempty `pat`). -/
def suffixAfter (pat : List Char) : List Char → Option (List Char)
  | [] => none
  | c :: cs =>
    if pat.isPrefixOf (c :: cs) then some (List.drop pat.length (c :: cs))
    else suffixAfter pat cs

/-- Python `str.strip()`: drop whitespace from both ends. -/
def pyStrip (l : List Char) : List Char :=
  ((l.dropWhile Char.isWhitespace).reverse.dropWhile Char.isWhitespace).reverse

/-- Python `str.rstrip('%')`: drop trailing percent signs. -/
def rstripPercent (l : List Char) : List Char :=
  (l.reverse.dropWhile (· == '%')).reverse

/-- Python `int(...)` on a plain decimal-digit string (the only shape it is
applied to in the wipe service); `none` where `int` would raise. -/
def parseDigits (l : List Char) : Option Nat :=
  if l ≠ [] ∧ l.all Char.isDigit then
    some (l.foldl (fun n c => n * 10 + (c.toNat - 48)) 0)
  else none

/-- Python truthiness of an optional string: `None` and `""` are falsy. -/
def truthy : Option String → Bool
  | none => false
  | some s => !(s == "")

/-! ## Ledger data model (`ledger.py`) -/

/-- The tagged `data` payload of a block: either the genesis marker or an
erasure-certificate record (`_create_genesis_block` /
`_record_local_erasure`). -/
inductive BlockData where
  | genesis (message : String)
  | cert (certificate_id certificate_hash device_serial device_model
         device_type wipe_method wipe_status wipe_start wipe_end : String)
         (simulated : Bool)
deriving DecidableEq, Repr, Inhabited

/-- One ledger block, as stored in `ledger.json`.  `transaction_id` is absent
on the genesis block, hence optional. -/
structure Block where
  block_index : Nat
  timestamp : String
  transaction_id : Option String
  data : BlockData
  previous_hash : String
  block_hash : String
deriving DecidableEq, Repr, Inhabited

/-- Every field of a block except `block_hash`: the input of
`_calculate_block_hash` (which deletes the `block_hash` key and hashes the
canonical sorted-key JSON of the rest). -/
structure BlockContent where
  block_index : Nat
  timestamp : String
  transaction_id : Option String
  data : BlockData
  previous_hash : String
deriving DecidableEq, Repr, Inhabited

/-- The hashed content of a block. -/
def Block.content (b : Block) : BlockContent :=
  ⟨b.block_index, b.timestamp, b.transaction_id, b.data, b.previous_hash⟩

/-- `_calculate_block_hash`, with the SHA-256-over-canonical-JSON digest
abstracted into the parameter `H`. -/
def calculateBlockHash (H : BlockContent → String) (b : Block) : String :=
  H b.content

/-- Build a block from its content by attaching the computed hash
(the `block_data['block_hash'] = self._calculate_block_hash(block_data)`
pattern). -/
def blockOfContent (H : BlockContent → String) (c : BlockContent) : Block :=
  ⟨c.block_index, c.timestamp, c.transaction_id, c.data, c.previous_hash, H c⟩

/-- `'0' * 64`, the genesis `previous_hash` sentinel. -/
def zeroSentinel : String := String.mk (List.replicate 64 '0')

/-- `_create_genesis_block` (timestamp passed in for `datetime.now()`). -/
def createGenesisBlock (H : BlockContent → String) (now : String) : Block :=
  blockOfContent H
    ⟨0, now, none, BlockData.genesis "ERASH Ledger Genesis Block", zeroSentinel⟩

/-- The persisted ledger file: metadata plus the block list. -/
structure Ledger where
  ledger_version : String
  created_at : String
  ledger_type : String
  description : String
  blocks : List Block
deriving DecidableEq, Repr

/-- `_initialize_local_ledger`: create the file with a single genesis block
when it does not exist (`existing = none`); leave an existing ledger
untouched.  `now₁` is the `datetime.now()` for `created_at`, `now₂` the one
inside `_create_genesis_block`. -/
def initializeLocalLedger (H : BlockContent → String) (now₁ now₂ : String) :
    Option Ledger → Ledger
  | some l => l
  | none =>
    { ledger_version := "1.0"
      created_at := now₁
      ledger_type := "local_immutable"
      description := "Immutable ledger for disk erasure certificates"
      blocks := [createGenesisBlock H now₂] }

/-- The `certificate_data` argument of `_record_local_erasure`
(only these two keys are read, via `.get(..., 'N/A')`). -/
structure CertData where
  certificate_id : Option String
  certificate_hash : Option String
deriving DecidableEq, Repr

/-- The fields of a wipe report read by the ledger and certificate code
(each via `dict.get`). -/
structure WipeReport where
  wipe_id : Option String
  device : Option String
  method : Option String
  status : Option String
  start_time : Option String
  end_time : Option String
  duration : Option String
  simulated : Option Bool
  verification : Option String
deriving DecidableEq, Repr

/-- The fields of a device descriptor read by the ledger and certificate
code (each via `dict.get`). -/
structure DeviceInfo where
  name : Option String
  model : Option String
  serial : Option String
  size : Option String
  type : Option String
  transport : Option String
deriving DecidableEq, Repr

/-- Uppercase the first 16 characters of a digest, the
`hashlib.sha256(data.encode()).hexdigest()[:16].upper()` idiom
(`Hs` abstracts the hex digest). -/
def digestPrefix16Upper (Hs : String → String) (data : String) : String :=
  String.mk (((Hs data).data.take 16).map Char.toUpper)

/-- `_generate_transaction_id` (ledger.py); `now` stands for
`datetime.now().isoformat()`. -/
def generateTransactionId (Hs : String → String) (device_info : DeviceInfo)
    (wipe_report : WipeReport) (now : String) : String :=
  "TXN-" ++ digestPrefix16Upper Hs
    ((device_info.serial.getD "UNKNOWN") ++ "_" ++ (wipe_report.wipe_id.getD "") ++ "_" ++ now)

/-- The dict returned by `_record_local_erasure`. -/
structure LedgerEntry where
  ledger_type : String
  block_index : Nat
  block_hash : String
  transaction_id : String
  timestamp : String
  previous_hash : String
  certificate_hash : String
deriving DecidableEq, Repr

/-- `_record_local_erasure`: append one erasure-certificate block.  Returns
the updated block list, the appended block, and the ledger-entry dict the
function returns to its caller.  `now` stands for the `datetime.now()`
timestamps taken inside the critical section. -/
def recordLocalErasure (H : BlockContent → String) (Hs : String → String)
    (blocks : List Block) (certificate_data : CertData)
    (wipe_report : WipeReport) (device_info : DeviceInfo) (now : String) :
    List Block × Block × LedgerEntry :=
  let previous_hash := match blocks.getLast? with
    | some b => b.block_hash
    | none => zeroSentinel
  let transaction_id := generateTransactionId Hs device_info wipe_report now
  let c : BlockContent :=
    { block_index := blocks.length
      timestamp := now
      transaction_id := some transaction_id
      data := BlockData.cert
        (certificate_data.certificate_id.getD "N/A")
        (certificate_data.certificate_hash.getD "N/A")
        (device_info.serial.getD "N/A")
        (device_info.model.getD "Unknown")
        (device_info.type.getD "Unknown")
        (wipe_report.method.getD "Unknown")
        (wipe_report.status.getD "Unknown")
        (wipe_report.start_time.getD "N/A")
        (wipe_report.end_time.getD "N/A")
        (wipe_report.simulated.getD false)
      previous_hash := previous_hash }
  let b := blockOfContent H c
  (blocks ++ [b], b,
    { ledger_type := "local"
      block_index := blocks.length
      block_hash := b.block_hash
      transaction_id := transaction_id
      timestamp := now
      previous_hash := previous_hash
      certificate_hash := certificate_data.certificate_hash.getD "N/A" })

/-- One append request: the inputs of a `record_erasure` call together with
its `datetime.now()` instant. -/
structure AppendInput where
  certificate_data : CertData
  wipe_report : WipeReport
  device_info : DeviceInfo
  now : String
deriving DecidableEq, Repr

/-- The block list obtained by initializing a fresh ledger and then
performing a sequence of `record_erasure` appends. -/
def buildLedger (H : BlockContent → String) (Hs : String → String)
    (genesisNow : String) (inputs : List AppendInput) : List Block :=
  inputs.foldl
    (fun bs inp =>
      (recordLocalErasure H Hs bs inp.certificate_data inp.wipe_report
        inp.device_info inp.now).1)
    [createGenesisBlock H genesisNow]

/-- The per-pair check of `_verify_chain_integrity`: the current block's
`previous_hash` must equal the previous block's stored `block_hash`, and the
current block's recomputed hash must equal its stored `block_hash`. -/
def checkLink (H : BlockContent → String) (prev cur : Block) : Bool :=
  (cur.previous_hash == prev.block_hash) && (calculateBlockHash H cur == cur.block_hash)

/-- The `for i in range(1, len(blocks))` walk of `_verify_chain_integrity`:
check every adjacent pair; the first block of the slice is never itself
re-hashed. -/
def chainOk (H : BlockContent → String) : List Block → Bool
  | [] => true
  | [_] => true
  | a :: b :: rest => checkLink H a b && chainOk H (b :: rest)

/-- `_verify_chain_integrity(ledger, up_to_block_index)`: run the pairwise
walk over `blocks[:up_to_block_index + 1]`. -/
def verifyChainIntegrity (H : BlockContent → String) (blocks : List Block)
    (upTo : Nat) : Bool :=
  chainOk H (blocks.take (upTo + 1))

/-! ## Certificate search and verification (`ledger.py`) -/

/-- One filter criterion of `_verify_local_certificate`: a falsy filter
(`None` or `""`) matches anything, a truthy one must equal the block's
field. -/
def filterOk (f : Option String) (v : String) : Bool :=
  if truthy f then v == f.getD "" else true

/-- Whether a block survives the matching loop of
`_verify_local_certificate`: genesis blocks are skipped, certificate blocks
must satisfy every provided filter. -/
def blockMatches (certificate_id serial_number certificate_hash : Option String)
    (b : Block) : Bool :=
  match b.data with
  | BlockData.genesis _ => false
  | BlockData.cert ci ch ds _ _ _ _ _ _ _ =>
    filterOk certificate_id ci && filterOk serial_number ds &&
      filterOk certificate_hash ch

/-- The `found = True` payload of a verification result. -/
structure FoundResult where
  integrity_valid : Bool
  chain_valid : Bool
  block_index : Nat
  block_hash : String
  timestamp : String
  transaction_id : String
  certificate_data : BlockData
deriving DecidableEq, Repr

/-- Result of `_verify_local_certificate`: the found dict with its
`verification_status` string, the NOT_FOUND dict, or the caught-exception
ERROR dict. -/
inductive VerifyResult where
  | found (r : FoundResult) (verification_status : String)
  | notFound
  | readError (message : String)
deriving DecidableEq, Repr

/-- The `found` flag of the returned dict. -/
def VerifyResult.foundFlag : VerifyResult → Bool
  | VerifyResult.found _ _ => true
  | _ => false

/-- The `verification_status` field of the returned dict. -/
def VerifyResult.statusStr : VerifyResult → String
  | VerifyResult.found _ s => s
  | VerifyResult.notFound => "NOT_FOUND"
  | VerifyResult.readError _ => "ERROR"

/-- The reported `block_index`, when found. -/
def VerifyResult.blockIndex : VerifyResult → Option Nat
  | VerifyResult.found r _ => some r.block_index
  | _ => none

/-- `_verify_local_certificate`.  A failed ledger read/parse
(`led = none`) lands in the exception handler and yields the ERROR dict;
otherwise the blocks are scanned, the **last** match (`matching_blocks[-1]`)
is reported, with `integrity_valid` from re-hashing that block alone and
`chain_valid` from the chain walk up to its stored `block_index`. -/
def verifyLocalCertificate (H : BlockContent → String) (led : Option Ledger)
    (certificate_id serial_number certificate_hash : Option String) :
    VerifyResult :=
  match led with
  | none => VerifyResult.readError "Error verifying certificate"
  | some ledger =>
    let ms := ledger.blocks.filter
      (blockMatches certificate_id serial_number certificate_hash)
    match ms.getLast? with
    | none => VerifyResult.notFound
    | some block =>
      let integrity_valid := block.block_hash == calculateBlockHash H block
      let chain_valid := verifyChainIntegrity H ledger.blocks block.block_index
      VerifyResult.found
        { integrity_valid := integrity_valid
          chain_valid := chain_valid
          block_index := block.block_index
          block_hash := block.block_hash
          timestamp := block.timestamp
          transaction_id := block.transaction_id.getD "N/A"
          certificate_data := block.data }
        (if integrity_valid && chain_valid then "VALID" else "INVALID")

/-- An HTTP-level response of the verify endpoint: 200 with the verification
result, or the 400 validation rejection. -/
inductive VerifyResponse where
  | ok (verification : VerifyResult)
  | badRequest (message : String)
deriving DecidableEq, Repr

/-- `app.py` `verify_certificate`: reject unless at least one of the three
filter fields is truthy (Python `any([...])`), otherwise delegate to the
ledger. -/
def verifyCertificateEndpoint (H : BlockContent → String) (led : Option Ledger)
    (certificate_id serial_number certificate_hash : Option String) :
    VerifyResponse :=
  if truthy certificate_id || truthy serial_number || truthy certificate_hash then
    VerifyResponse.ok
      (verifyLocalCertificate H led certificate_id serial_number certificate_hash)
  else
    VerifyResponse.badRequest
      "At least one verification parameter required (certificate_id, serial_number, or certificate_hash)"

/-- One row of the `search_by_serial` result list. -/
structure SearchRecord where
  block_index : Nat
  timestamp : String
  certificate_id : String
  certificate_hash : String
  wipe_method : String
  wipe_status : String
deriving DecidableEq, Repr

/-- The per-block step of the `search_by_serial` loop: an
erasure-certificate block whose `device_serial` equals the requested serial
contributes its summary row, every other block contributes nothing. -/
def searchRecordOf (serial_number : String) (b : Block) : Option SearchRecord :=
  match b.data with
  | BlockData.genesis _ => none
  | BlockData.cert ci ch ds _ _ wm ws _ _ _ =>
    if ds == serial_number then
      some ⟨b.block_index, b.timestamp, ci, ch, wm, ws⟩
    else none

/-- `search_by_serial`: a failed ledger read/parse (`led = none`) lands in
the exception handler and yields `[]`; otherwise collect, in block order, one
summary per erasure-certificate block whose `device_serial` equals the given
serial. -/
def searchBySerial (led : Option Ledger) (serial_number : String) :
    List SearchRecord :=
  match led with
  | none => []
  | some ledger => ledger.blocks.filterMap (searchRecordOf serial_number)

/-! ## Tampering operations (for the integrity round-trip property) -/

/-- Replace the payload of the block at position `i`, leaving every other
field — in particular the stored `block_hash` — and every other block
unchanged. -/
def tamperData : List Block → Nat → BlockData → List Block
  | [], _, _ => []
  | b :: bs, 0, d => { b with data := d } :: bs
  | b :: bs, i + 1, d => b :: tamperData bs i d

/-- Replace the `previous_hash` of the block at position `i`, leaving every
other field and every other block unchanged. -/
def tamperPrev : List Block → Nat → String → List Block
  | [], _, _ => []
  | b :: bs, 0, p => { b with previous_hash := p } :: bs
  | b :: bs, i + 1, p => b :: tamperPrev bs i p

/-! ## A concrete injective digest for evaluation -/

/-- Unary tag for a natural number (injective, kernel-evaluable). -/
def natTag (n : Nat) : List Char := List.replicate n '#'

/-- Tag for an optional string. -/
def optTag : Option String → List Char
  | none => ['N']
  | some s => 'S' :: s.data

/-- Tag for a payload. -/
def dataTag : BlockData → List Char
  | BlockData.genesis m => 'G' :: m.data
  | BlockData.cert a b c d e f g h i s =>
    'C' :: (a.data ++ '|' :: b.data ++ '|' :: c.data ++ '|' :: d.data ++
      '|' :: e.data ++ '|' :: f.data ++ '|' :: g.data ++ '|' :: h.data ++
      '|' :: i.data ++ '|' :: [if s then 'T' else 'F'])

/-- A concrete, executable stand-in for the SHA-256-over-canonical-JSON
digest, used to instantiate the abstract `H` on concrete inputs. -/
def encodeContent (c : BlockContent) : String :=
  String.mk (natTag c.block_index ++ '|' :: c.timestamp.data ++
    '|' :: optTag c.transaction_id ++ '|' :: dataTag c.data ++
    '|' :: c.previous_hash.data)

/-! ## Wipe job registry and simulated executor (`wipe_service.py`) -/

/-- One entry of a job's `logs` list. -/
structure LogEntry where
  timestamp : String
  message : String
deriving DecidableEq, Repr

/-- One record of the `active_wipes` table, as created by `start_wipe` and
mutated by `_update_wipe_status`. -/
structure JobRecord where
  device : String
  status : String
  progress : Nat
  method : String
  start_time : String
  logs : List LogEntry
  simulated : Bool
  end_time : Option String
  error : Option String
deriving DecidableEq, Repr

/-- The `active_wipes` dict, as an insertion-ordered association list keyed
by wipe id (ids are unique in any reachable registry). -/
abbrev Registry := List (String × JobRecord)

/-- `self.active_wipes.get(wipe_id)` (first — unique — key match). -/
def lookupJob : Registry → String → Option JobRecord
  | [], _ => none
  | p :: t, wipe_id => if p.1 == wipe_id then some p.2 else lookupJob t wipe_id

/-- `start_wipe`: reject — returning `{'error': ..., 'wipe_id': None}` and
creating no record — when any registered job (of any status) has the same
device path; otherwise insert a fresh `starting` record and hand the id
back.  The background thread launch is modelled separately by
`runSimulatedWipe`. -/
def startWipe (reg : Registry) (wipe_id device_path method : String)
    (now : String) (simulated : Bool) : Registry × Option String :=
  if reg.any (fun p => p.2.device == device_path) then
    (reg, none)
  else
    (reg ++ [(wipe_id,
      { device := device_path
        status := "starting"
        progress := 0
        method := method
        start_time := now
        logs := []
        simulated := simulated
        end_time := none
        error := none })], some wipe_id)

/-- The field mutations `_update_wipe_status` performs on one job record:
always overwrite `status`; overwrite `progress` when one is given
(`is not None` — `0` counts); append a log line when `log` is truthy;
overwrite `error` when `error` is truthy; set `end_time` **only** when the
new status is `completed`. -/
def applyJobChange (status : String) (progress : Option Nat)
    (log : Option String) (error : Option String) (now : String)
    (job : JobRecord) : JobRecord :=
  let j1 := { job with status := status }
  let j2 := match progress with
    | some p => { j1 with progress := p }
    | none => j1
  let j3 := if truthy log then
      { j2 with logs := j2.logs ++ [⟨now, log.getD ""⟩] }
    else j2
  let j4 := if truthy error then { j3 with error := error } else j3
  if status == "completed" then { j4 with end_time := some now } else j4

/-- `_update_wipe_status`: apply the change to the record under `wipe_id`,
leaving the registry unchanged when the id is unknown.  `now` stands for
the `datetime.now()` instants taken inside the call. -/
def updateWipeStatus (reg : Registry) (wipe_id status : String)
    (progress : Option Nat) (log : Option String) (error : Option String)
    (now : String) : Registry :=
  reg.map fun p =>
    if p.1 == wipe_id then (p.1, applyJobChange status progress log error now p.2)
    else p

/-- The fixed scripted stage list of `_run_simulated_wipe`. -/
def simulatedStages (device_path method : String) : List String :=
  [ "Initializing wipe operation..."
  , "Target device: " ++ device_path
  , "Method: " ++ method
  , "Starting erasure process..."
  , "Pass 1/3: Writing random data..."
  , "Progress: 10%"
  , "Progress: 25%"
  , "Progress: 40%"
  , "Pass 2/3: Writing zeros..."
  , "Progress: 50%"
  , "Progress: 65%"
  , "Progress: 75%"
  , "Pass 3/3: Verification..."
  , "Progress: 85%"
  , "Progress: 95%"
  , "Progress: 100%"
  , "Wipe completed successfully!"
  , "Device " ++ device_path ++ " has been securely erased."
  ]

/-- The per-stage progress computation of `_run_simulated_wipe` for stage
`i` of `n` with text `log`: parse the percent after a `Progress:` marker
when one occurs (`int(log.split("Progress:")[1].strip().rstrip('%'))` —
every reachable such stage parses, so the `getD 0` branch is dead), else
`100` on the final stage, else `int((i / n) * 100)`.  The float expression
`int((i / n) * 100)` equals truncated `(i * 100) / n` for every
`i < n = 18`, double rounding included. -/
def stageProgress (n i : Nat) (log : String) : Nat :=
  match suffixAfter "Progress:".data log.data with
  | some rest => (parseDigits (rstripPercent (pyStrip rest))).getD 0
  | none => if i == n - 1 then 100 else (i * 100) / n

/-- One `_update_wipe_status` call as issued by the worker. -/
structure WipeChange where
  status : String
  progress : Option Nat
  log : Option String
  error : Option String
  now : String
deriving DecidableEq, Repr

/-- The ordered sequence of `_update_wipe_status` calls performed by
`_run_simulated_wipe`: one `running` update per stage (progress from
`stageProgress`, the stage text as log line), then the terminal
`completed` update with `progress=100` and no log line.  `now k` stands
for the `datetime.now()` of the `k`-th call. -/
def simulatedChanges (device_path method : String) (now : Nat → String) :
    List WipeChange :=
  ((simulatedStages device_path method).enum.map fun p =>
    { status := "running"
      progress := some (stageProgress (simulatedStages device_path method).length p.1 p.2)
      log := some p.2
      error := none
      now := now p.1 }) ++
  [{ status := "completed", progress := some 100, log := none, error := none,
     now := now (simulatedStages device_path method).length }]

/-- Apply a list of `_update_wipe_status` calls for one job in order. -/
def applyChanges (reg : Registry) (wipe_id : String) (cs : List WipeChange) :
    Registry :=
  cs.foldl
    (fun r c => updateWipeStatus r wipe_id c.status c.progress c.log c.error c.now)
    reg

/-- `_run_simulated_wipe` in registry terms: perform all scripted updates. -/
def runSimulatedWipe (reg : Registry) (wipe_id device_path method : String)
    (now : Nat → String) : Registry :=
  applyChanges reg wipe_id (simulatedChanges device_path method now)

/-- The registry after the first `j` scripted updates (the states a
status/log poller can observe during the run). -/
def stateAfter (reg : Registry) (wipe_id device_path method : String)
    (now : Nat → String) (j : Nat) : Registry :=
  applyChanges reg wipe_id ((simulatedChanges device_path method now).take j)

/-- The job's log list at a state, `[]` when the job id is unknown. -/
def jobLogs (reg : Registry) (wipe_id : String) : List LogEntry :=
  ((lookupJob reg wipe_id).map (·.logs)).getD []

/-- The successive values stored into the job's `progress` field by the
scripted run, in update order. -/
def progressTrace (device_path method : String) : List Nat :=
  (simulatedChanges device_path method (fun _ => "")).filterMap (·.progress)

/-- The log entries a list of updates appends to a job's log (an update
appends one entry exactly when its `log` argument is truthy). -/
def addedLogs (cs : List WipeChange) : List LogEntry :=
  cs.filterMap fun c =>
    if truthy c.log then some ⟨c.now, c.log.getD ""⟩ else none

/-- Decidable monotonicity of a value sequence. -/
def nondecreasing : List Nat → Bool
  | [] => true
  | [_] => true
  | a :: b :: rest => (a ≤ b : Bool) && nondecreasing (b :: rest)

/-- `get_wipe_logs`: for a known job, the logs from `since_index` on
(`logs[since_index:]`), the total log count, and the current status and
progress; `none` for an unknown id. -/
def getWipeLogs (reg : Registry) (wipe_id : String) (since_index : Nat) :
    Option (List LogEntry × Nat × String × Nat) :=
  match lookupJob reg wipe_id with
  | some job => some (job.logs.drop since_index, job.logs.length, job.status, job.progress)
  | none => none

/-! ## Certificate generation (`certificate.py`, `app.py`) -/

/-- `_generate_cert_id`: 16 uppercase hex characters of the digest of
`f"{serial}_{wipe_id}_{now}"`; `Hs` abstracts the hex digest, `now` the
`datetime.now().isoformat()` taken inside the call. -/
def generateCertId (Hs : String → String) (device_info : DeviceInfo)
    (wipe_report : WipeReport) (now : String) : String :=
  digestPrefix16Upper Hs
    ((device_info.serial.getD "UNKNOWN") ++ "_" ++ (wipe_report.wipe_id.getD "") ++ "_" ++ now)

/-- The record hashed by `_calculate_hash` for the certificate hash:
`{'device': device_info, 'wipe': wipe_report, 'cert_id': cert_id}`. -/
structure CertHashInput where
  device : DeviceInfo
  wipe : WipeReport
  cert_id : String
deriving DecidableEq, Repr

/-- The fields of the dict returned by `generate_certificate` that the
recording flow and the claims consume. -/
structure GeneratedCert where
  certificate_id : String
  certificate_hash : String
deriving DecidableEq, Repr

/-- `CertificateGenerator.generate_certificate`, reduced to the certificate
identity it returns: `cert_id` from `_generate_cert_id` at generation time
`now`, `certificate_hash` from `_calculate_hash` (abstracted by `Hc`) over
device info, wipe report and `cert_id`.  The optional `ledger_entry` flows
only into the rendered PDF, never into `cert_id` or `cert_hash`. -/
def generateCertificate (Hs : String → String) (Hc : CertHashInput → String)
    (wipe_report : WipeReport) (device_info : DeviceInfo)
    (ledger_entry : Option LedgerEntry) (now : String) : GeneratedCert :=
  let _ := ledger_entry
  let cert_id := generateCertId Hs device_info wipe_report now
  let cert_hash := Hc ⟨device_info, wipe_report, cert_id⟩
  { certificate_id := cert_id, certificate_hash := cert_hash }

/-- The certificate-generation endpoint of `app.py` with
`record_on_blockchain` handling: when recording, a first certificate
(`temp_cert`, generated at `t₁`) is recorded on the ledger (block timestamp
`tRec`), and the certificate handed back to the caller is **regenerated**
at `t₂` with the ledger entry attached; without recording, a single
certificate generated at `t₁` is returned.  Returns the response payload
(certificate and optional ledger entry) and the resulting block list. -/
def generateCertificateEndpoint (H : BlockContent → String)
    (Hs : String → String) (Hc : CertHashInput → String)
    (blocks : List Block) (wipe_report : WipeReport)
    (device_info : DeviceInfo) (record_on_blockchain : Bool)
    (t₁ tRec t₂ : String) : (GeneratedCert × Option LedgerEntry) × List Block :=
  if record_on_blockchain then
    let temp_cert := generateCertificate Hs Hc wipe_report device_info none t₁
    let rec_result := recordLocalErasure H Hs blocks
      ⟨some temp_cert.certificate_id, some temp_cert.certificate_hash⟩
      wipe_report device_info tRec
    let entry := rec_result.2.2
    let certificate_data :=
      generateCertificate Hs Hc wipe_report device_info (some entry) t₂
    ((certificate_data, some entry), rec_result.1)
  else
    ((generateCertificate Hs Hc wipe_report device_info none t₁, none), blocks)

/-- The `certificate_id` carried by a payload, when it is a certificate
payload. -/
def BlockData.certIdOf : BlockData → Option String
  | BlockData.genesis _ => none
  | BlockData.cert ci _ _ _ _ _ _ _ _ _ => some ci

/-- The `certificate_hash` carried by a payload, when it is a certificate
payload. -/
def BlockData.certHashOf : BlockData → Option String
  | BlockData.genesis _ => none
  | BlockData.cert _ ch _ _ _ _ _ _ _ _ => some ch

/-! ## The chain invariant and its preservation -/

/-- The chain invariant: contiguous indices from `0`, every stored
`block_hash` equal to the recomputed hash of the block's own content, and
every `previous_hash` equal to the predecessor's stored `block_hash`. -/
def chainInvariant (H : BlockContent → String) (l : List Block) : Prop :=
  (∀ i (h : i < l.length), (l.get ⟨i, h⟩).block_index = i) ∧
  (∀ i (h : i < l.length),
    (l.get ⟨i, h⟩).block_hash = calculateBlockHash H (l.get ⟨i, h⟩)) ∧
  (∀ i (h : i < l.length - 1),
    (l.get ⟨i + 1, by omega⟩).previous_hash = (l.get ⟨i, by omega⟩).block_hash)

instance (H : BlockContent → String) (l : List Block) :
    Decidable (chainInvariant H l) := by
  unfold chainInvariant
  infer_instance

/-! ## Spec-side definitions for the search characterization -/

/-- Spec-side predicate: the block is an erasure-certificate block whose
`device_serial` equals the given serial. -/
def isCertForSerial (serial : String) (b : Block) : Bool :=
  match b.data with
  | BlockData.genesis _ => false
  | BlockData.cert _ _ ds _ _ _ _ _ _ _ => ds == serial

/-- Spec-side summary row of a block (the genesis branch is never reached
on a list filtered by `isCertForSerial`). -/
def summaryOf (b : Block) : SearchRecord :=
  match b.data with
  | BlockData.genesis _ => ⟨b.block_index, b.timestamp, "", "", "", ""⟩
  | BlockData.cert ci ch _ _ _ wm ws _ _ _ =>
    ⟨b.block_index, b.timestamp, ci, ch, wm, ws⟩

/-! ## Concrete fixtures for evaluation -/

/-- A concrete device descriptor (the simulated `/dev/sda`). -/
def exDevice : DeviceInfo :=
  { name := some "/dev/sda", model := some "Samsung SSD 860 EVO",
    serial := some "SER1", size := some "500G", type := some "SSD",
    transport := some "sata" }

/-- A concrete completed wipe report. -/
def exReport : WipeReport :=
  { wipe_id := some "w1", device := some "/dev/sda",
    method := some "dodshort", status := some "completed",
    start_time := some "t0", end_time := some "t1",
    duration := some "0:00:09", simulated := some true,
    verification := some "Passed" }

/-- A concrete append request. -/
def exInput : AppendInput :=
  { certificate_data := { certificate_id := some "CERTID1",
                          certificate_hash := some "CERTHASH1" }
    wipe_report := exReport
    device_info := exDevice
    now := "T1" }

/-- A concrete two-block ledger: genesis plus one erasure certificate,
hashed with the concrete digest `encodeContent`. -/
def exBlocks : List Block :=
  buildLedger encodeContent (fun s => s) "T0" [exInput]

/-- A concrete ledger wrapper around `exBlocks`. -/
def exLedger : Ledger :=
  { ledger_version := "1.0"
    created_at := "T0"
    ledger_type := "local_immutable"
    description := "Immutable ledger for disk erasure certificates"
    blocks := exBlocks }

/-- A registry holding a single job for `/dev/sdX` that has already reached
the terminal `completed` status. -/
def exRegistryDone : Registry :=
  [("wipe_1",
    { device := "/dev/sdX"
      status := "completed"
      progress := 100
      method := "dodshort"
      start_time := "t0"
      logs := []
      simulated := true
      end_time := some "t1"
      error := none })]

/-- A registry holding a single running job. -/
def exRegistryRunning : Registry :=
  [("w",
    { device := "/dev/sda"
      status := "running"
      progress := 50
      method := "dodshort"
      start_time := "t0"
      logs := []
      simulated := true
      end_time := none
      error := none })]

lemma recordLocalErasure_fst (H : BlockContent → String) (Hs : String → String)
    (l : List Block) (cd : CertData) (wr : WipeReport) (di : DeviceInfo)
    (now : String) :
    (recordLocalErasure H Hs l cd wr di now).1
      = l ++ [(recordLocalErasure H Hs l cd wr di now).2.1] := rfl

lemma record_block_index (H : BlockContent → String) (Hs : String → String)
    (l : List Block) (cd : CertData) (wr : WipeReport) (di : DeviceInfo)
    (now : String) :
    (recordLocalErasure H Hs l cd wr di now).2.1.block_index = l.length := rfl

lemma record_block_hash (H : BlockContent → String) (Hs : String → String)
    (l : List Block) (cd : CertData) (wr : WipeReport) (di : DeviceInfo)
    (now : String) :
    (recordLocalErasure H Hs l cd wr di now).2.1.block_hash
      = calculateBlockHash H (recordLocalErasure H Hs l cd wr di now).2.1 := rfl

lemma record_previous_hash (H : BlockContent → String) (Hs : String → String)
    (l : List Block) (cd : CertData) (wr : WipeReport) (di : DeviceInfo)
    (now : String) (hne : l ≠ []) :
    (recordLocalErasure H Hs l cd wr di now).2.1.previous_hash
      = (l.getLast hne).block_hash := by
  simp [recordLocalErasure, blockOfContent, List.getLast?_eq_getLast _ hne]

lemma chainInvariant_genesis (H : BlockContent → String) (now : String) :
    chainInvariant H [createGenesisBlock H now] := by
  refine ⟨?_, ?_, ?_⟩ <;> intro i h
  · match i, h with
    | 0, _ => rfl
  · match i, h with
    | 0, _ => rfl
  · simp at h

lemma get_append_singleton_last {α : Type} (l : List α) (b : α) (i : Nat)
    (h : i < (l ++ [b]).length) (hi : i = l.length) :
    (l ++ [b]).get ⟨i, h⟩ = b := by
  subst hi; simp

lemma chainInvariant_record (H : BlockContent → String) (Hs : String → String)
    (l : List Block) (cd : CertData) (wr : WipeReport) (di : DeviceInfo)
    (now : String) (hne : l ≠ []) (hinv : chainInvariant H l) :
    chainInvariant H (recordLocalErasure H Hs l cd wr di now).1 := by
  obtain ⟨h1, h2, h3⟩ := hinv
  set b := (recordLocalErasure H Hs l cd wr di now).2.1 with hb
  rw [recordLocalErasure_fst]
  have hlen : (l ++ [b]).length = l.length + 1 := by simp
  refine ⟨?_, ?_, ?_⟩
  · intro i h
    rcases Nat.lt_or_ge i l.length with hi | hi
    · have : (l ++ [b]).get ⟨i, h⟩ = l.get ⟨i, hi⟩ := List.getElem_append_left hi
      rw [this]; exact h1 i hi
    · have hieq : i = l.length := by
        have := hlen ▸ h; omega
      rw [get_append_singleton_last l b i h hieq, hb, record_block_index, hieq]
  · intro i h
    rcases Nat.lt_or_ge i l.length with hi | hi
    · have : (l ++ [b]).get ⟨i, h⟩ = l.get ⟨i, hi⟩ := List.getElem_append_left hi
      rw [this]; exact h2 i hi
    · have hieq : i = l.length := by
        have := hlen ▸ h; omega
      rw [get_append_singleton_last l b i h hieq, hb, record_block_hash]
  · intro i h
    have hib : i + 1 < (l ++ [b]).length := by
      have := hlen ▸ h; omega
    rcases Nat.lt_or_ge (i + 1) l.length with hi | hi
    · have e1 : (l ++ [b]).get ⟨i + 1, by omega⟩ = l.get ⟨i + 1, hi⟩ :=
        List.getElem_append_left hi
      have e2 : (l ++ [b]).get ⟨i, by omega⟩ = l.get ⟨i, by omega⟩ :=
        List.getElem_append_left (by omega)
      rw [e1, e2]
      exact h3 i (by omega)
    · have hieq : i + 1 = l.length := by
        have := hlen ▸ h; omega
      have e1 : (l ++ [b]).get ⟨i + 1, by omega⟩ = b :=
        get_append_singleton_last l b (i + 1) hib hieq
      have e2 : (l ++ [b]).get ⟨i, by omega⟩ = l.get ⟨i, by omega⟩ :=
        List.getElem_append_left (by omega)
      have hlast : l.getLast hne = l.get ⟨i, by omega⟩ := by
        rw [List.getLast_eq_getElem]
        congr 1
        omega
      rw [e1, e2]
      exact (record_previous_hash H Hs l cd wr di now hne).trans
        (congrArg Block.block_hash hlast)

lemma chainInvariant_buildLedger (H : BlockContent → String)
    (Hs : String → String) (genesisNow : String) (inputs : List AppendInput) :
    chainInvariant H (buildLedger H Hs genesisNow inputs)
      ∧ buildLedger H Hs genesisNow inputs ≠ [] := by
  unfold buildLedger
  have aux : ∀ (is : List AppendInput) (l : List Block), l ≠ [] →
      chainInvariant H l →
      chainInvariant H (is.foldl (fun bs inp =>
        (recordLocalErasure H Hs bs inp.certificate_data inp.wipe_report
          inp.device_info inp.now).1) l)
      ∧ is.foldl (fun bs inp =>
        (recordLocalErasure H Hs bs inp.certificate_data inp.wipe_report
          inp.device_info inp.now).1) l ≠ [] := by
    intro is
    induction is with
    | nil => intro l hne hinv; exact ⟨hinv, hne⟩
    | cons a t ih =>
      intro l hne hinv
      simp only [List.foldl_cons]
      apply ih
      · rw [recordLocalErasure_fst]; simp
      · exact chainInvariant_record H Hs l _ _ _ _ hne hinv
  exact aux inputs [createGenesisBlock H genesisNow] (by simp)
    (chainInvariant_genesis H genesisNow)

/-! ## Characterizing the chain walk -/

lemma chainOk_iff (H : BlockContent → String) (l : List Block) :
    chainOk H l = true ↔
      ∀ i (h : i < l.length - 1),
        checkLink H (l.get ⟨i, by omega⟩) (l.get ⟨i + 1, by omega⟩) = true := by
  induction l with
  | nil => simp [chainOk]
  | cons a t ih =>
    cases t with
    | nil =>
      simp [chainOk]
    | cons b r =>
      rw [chainOk, Bool.and_eq_true, ih]
      constructor
      · rintro ⟨hab, hrest⟩ i h
        match i with
        | 0 => exact hab
        | Nat.succ j =>
          have hj : j < (b :: r).length - 1 := by
            simp at h ⊢; omega
          exact hrest j hj
      · intro hall
        refine ⟨hall 0 (by simp), ?_⟩
        intro i h
        have hi : i + 1 < (a :: b :: r).length - 1 := by
          simp at h ⊢; omega
        exact hall (i + 1) hi

/-- A ledger satisfying the chain invariant passes `_verify_chain_integrity`
at every index. -/
lemma verifyChain_of_invariant (H : BlockContent → String) (l : List Block)
    (hinv : chainInvariant H l) (k : Nat) :
    verifyChainIntegrity H l k = true := by
  obtain ⟨_, h2, h3⟩ := hinv
  rw [verifyChainIntegrity, chainOk_iff]
  intro i h
  have hlt : (l.take (k + 1)).length ≤ l.length := by
    simp [List.length_take]
  have hi1 : i + 1 < l.length := by omega
  have e1 : (l.take (k + 1)).get ⟨i, by omega⟩ = l.get ⟨i, by omega⟩ :=
    List.getElem_take l
  have e2 : (l.take (k + 1)).get ⟨i + 1, by omega⟩ = l.get ⟨i + 1, by omega⟩ :=
    List.getElem_take l
  rw [checkLink, Bool.and_eq_true, e1, e2]
  constructor
  · rw [beq_iff_eq]
    exact h3 i (by omega)
  · rw [beq_iff_eq, calculateBlockHash]
    exact (h2 (i + 1) hi1).symm

/-- If some adjacent pair inside the inspected prefix fails the link check,
`_verify_chain_integrity` answers `false`. -/
lemma verifyChain_false_of_badLink (H : BlockContent → String)
    (l : List Block) (i k : Nat) (h1 : 1 ≤ i) (h2 : i ≤ k)
    (h3 : i < l.length)
    (hbad : checkLink H (l.get ⟨i - 1, by omega⟩) (l.get ⟨i, h3⟩) = false) :
    verifyChainIntegrity H l k = false := by
  by_contra hcon
  have htrue : verifyChainIntegrity H l k = true := by
    cases hv : verifyChainIntegrity H l k
    · exact absurd hv hcon
    · rfl
  rw [verifyChainIntegrity, chainOk_iff] at htrue
  have hlen : (l.take (k + 1)).length = min (k + 1) l.length := by
    simp [List.length_take]
  have hib : i - 1 < (l.take (k + 1)).length - 1 := by omega
  have := htrue (i - 1) hib
  have e1 : (l.take (k + 1)).get ⟨i - 1, by omega⟩ = l.get ⟨i - 1, by omega⟩ :=
    List.getElem_take l
  have e2 : (l.take (k + 1)).get ⟨i - 1 + 1, by omega⟩ = l.get ⟨i - 1 + 1, by omega⟩ :=
    List.getElem_take l
  rw [e1, e2] at this
  have hieq : i - 1 + 1 = i := by omega
  simp only [hieq] at this
  rw [hbad] at this
  exact Bool.false_ne_true this

/-! ## Tampering lemmas -/

lemma tamperData_length (l : List Block) (i : Nat) (d : BlockData) :
    (tamperData l i d).length = l.length := by
  induction l generalizing i with
  | nil => rfl
  | cons b bs ih =>
    cases i with
    | zero => rfl
    | succ j => simp [tamperData, ih]

lemma tamperPrev_length (l : List Block) (i : Nat) (p : String) :
    (tamperPrev l i p).length = l.length := by
  induction l generalizing i with
  | nil => rfl
  | cons b bs ih =>
    cases i with
    | zero => rfl
    | succ j => simp [tamperPrev, ih]

lemma tamperData_get_self (l : List Block) (i : Nat) (d : BlockData)
    (h : i < l.length) :
    (tamperData l i d).get ⟨i, by rw [tamperData_length]; exact h⟩
      = { l.get ⟨i, h⟩ with data := d } := by
  induction l generalizing i with
  | nil => simp at h
  | cons b bs ih =>
    cases i with
    | zero => rfl
    | succ j => exact ih j (by simpa using h)

lemma tamperData_get_other (l : List Block) (i : Nat) (d : BlockData)
    (j : Nat) (hj : j < l.length) (hne : j ≠ i) :
    (tamperData l i d).get ⟨j, by rw [tamperData_length]; exact hj⟩
      = l.get ⟨j, hj⟩ := by
  induction l generalizing i j with
  | nil => simp at hj
  | cons b bs ih =>
    cases i with
    | zero =>
      cases j with
      | zero => exact absurd rfl hne
      | succ k => rfl
    | succ i' =>
      cases j with
      | zero => rfl
      | succ k => exact ih i' k (by simpa using hj) (by omega)

lemma tamperPrev_get_self (l : List Block) (i : Nat) (p : String)
    (h : i < l.length) :
    (tamperPrev l i p).get ⟨i, by rw [tamperPrev_length]; exact h⟩
      = { l.get ⟨i, h⟩ with previous_hash := p } := by
  induction l generalizing i with
  | nil => simp at h
  | cons b bs ih =>
    cases i with
    | zero => rfl
    | succ j => exact ih j (by simpa using h)

lemma tamperPrev_get_other (l : List Block) (i : Nat) (p : String)
    (j : Nat) (hj : j < l.length) (hne : j ≠ i) :
    (tamperPrev l i p).get ⟨j, by rw [tamperPrev_length]; exact hj⟩
      = l.get ⟨j, hj⟩ := by
  induction l generalizing i j with
  | nil => simp at hj
  | cons b bs ih =>
    cases i with
    | zero =>
      cases j with
      | zero => exact absurd rfl hne
      | succ k => rfl
    | succ i' =>
      cases j with
      | zero => rfl
      | succ k => exact ih i' k (by simpa using hj) (by omega)

/-- Tampering the payload of a block at position `i ≥ 1` makes the chain
walk fail at every `up_to_index ≥ i`, provided the tampered content no
longer hashes to the stored `block_hash`. -/
lemma verifyChain_tamperData_false (H : BlockContent → String)
    (l : List Block) (i : Nat) (d : BlockData) (k : Nat)
    (h1 : 1 ≤ i) (h2 : i ≤ k) (h3 : i < l.length)
    (hneq : calculateBlockHash H { l.get ⟨i, h3⟩ with data := d }
      ≠ (l.get ⟨i, h3⟩).block_hash) :
    verifyChainIntegrity H (tamperData l i d) k = false := by
  have h3' : i < (tamperData l i d).length := by
    rw [tamperData_length]; exact h3
  apply verifyChain_false_of_badLink H (tamperData l i d) i k h1 h2 h3'
  have hi : (tamperData l i d).get ⟨i, h3'⟩ = { l.get ⟨i, h3⟩ with data := d } :=
    tamperData_get_self l i d h3
  rw [checkLink, hi]
  have hbh : ({ l.get ⟨i, h3⟩ with data := d } : Block).block_hash
      = (l.get ⟨i, h3⟩).block_hash := rfl
  have : (calculateBlockHash H { l.get ⟨i, h3⟩ with data := d }
      == ({ l.get ⟨i, h3⟩ with data := d } : Block).block_hash) = false := by
    rw [hbh, beq_eq_false_iff_ne]
    exact hneq
  rw [this, Bool.and_false]

/-- Tampering the `previous_hash` of a block at position `i ≥ 1` makes the
chain walk fail at every `up_to_index ≥ i`, provided the new value differs
from the predecessor's stored `block_hash`. -/
lemma verifyChain_tamperPrev_false (H : BlockContent → String)
    (l : List Block) (i : Nat) (p : String) (k : Nat)
    (h1 : 1 ≤ i) (h2 : i ≤ k) (h3 : i < l.length)
    (hneq : p ≠ (l.get ⟨i - 1, by omega⟩).block_hash) :
    verifyChainIntegrity H (tamperPrev l i p) k = false := by
  have h3' : i < (tamperPrev l i p).length := by
    rw [tamperPrev_length]; exact h3
  apply verifyChain_false_of_badLink H (tamperPrev l i p) i k h1 h2 h3'
  have hi : (tamperPrev l i p).get ⟨i, h3'⟩
      = { l.get ⟨i, h3⟩ with previous_hash := p } :=
    tamperPrev_get_self l i p h3
  have hprev : (tamperPrev l i p).get ⟨i - 1, by omega⟩
      = l.get ⟨i - 1, by omega⟩ :=
    tamperPrev_get_other l i p (i - 1) (by omega) (by omega)
  rw [checkLink, hi, hprev]
  have : (({ l.get ⟨i, h3⟩ with previous_hash := p } : Block).previous_hash
      == (l.get ⟨i - 1, by omega⟩).block_hash) = false := by
    rw [beq_eq_false_iff_ne]
    exact hneq
  rw [this, Bool.false_and]

/-! ## Claim theorems: ledger (C1, C2, C3) -/

/-- Claim C1 (amended): for any ledger built by appending erasure
certificates after genesis, `verify_chain` answers true at every index; and
replacing the payload or the `previous_hash` of any stored block of index
`i ≥ 1` (keeping that block's stored `block_hash`) makes `verify_chain`
false at every `up_to_index ≥ i`, provided the change actually breaks the
hash/link equation (as any byte flip does for a collision-resistant
digest).  The genesis block at index 0 is excluded: the walk of
`_verify_chain_integrity` starts at block 1 and never recomputes the
genesis hash, so genesis tampering goes undetected (see the
counterexample). -/
theorem verify_chain_round_trip (H : BlockContent → String)
    (Hs : String → String) (g : String) (inputs : List AppendInput) :
    (∀ k, verifyChainIntegrity H (buildLedger H Hs g inputs) k = true) ∧
    (∀ i d k (h1 : 1 ≤ i) (h2 : i ≤ k)
      (h3 : i < (buildLedger H Hs g inputs).length),
      calculateBlockHash H
          { (buildLedger H Hs g inputs).get ⟨i, h3⟩ with data := d }
        ≠ ((buildLedger H Hs g inputs).get ⟨i, h3⟩).block_hash →
      verifyChainIntegrity H (tamperData (buildLedger H Hs g inputs) i d) k
        = false) ∧
    (∀ i p k (h1 : 1 ≤ i) (h2 : i ≤ k)
      (h3 : i < (buildLedger H Hs g inputs).length),
      p ≠ ((buildLedger H Hs g inputs).get ⟨i - 1, by omega⟩).block_hash →
      verifyChainIntegrity H (tamperPrev (buildLedger H Hs g inputs) i p) k
        = false) := by
  refine ⟨?_, ?_, ?_⟩
  · intro k
    exact verifyChain_of_invariant H _ (chainInvariant_buildLedger H Hs g inputs).1 k
  · intro i d k h1 h2 h3 hneq
    exact verifyChain_tamperData_false H _ i d k h1 h2 h3 hneq
  · intro i p k h1 h2 h3 hneq
    exact verifyChain_tamperPrev_false H _ i p k h1 h2 h3 hneq

/-- Witness for `verify_chain_round_trip` at the concrete two-block ledger
`exBlocks`: the intact chain verifies, and tampering block 1's payload or
`previous_hash` is detected. -/
theorem verify_chain_round_trip_witness :
    verifyChainIntegrity encodeContent exBlocks 1 = true ∧
    verifyChainIntegrity encodeContent
      (tamperData exBlocks 1 (BlockData.genesis "spoof")) 1 = false ∧
    verifyChainIntegrity encodeContent (tamperPrev exBlocks 1 "spoof") 1 = false := by
  have h := verify_chain_round_trip encodeContent (fun s => s) "T0" [exInput]
  exact ⟨h.1 1,
    h.2.1 1 (BlockData.genesis "spoof") 1 (by decide) (by decide) (by decide)
      (by decide),
    h.2.2 1 "spoof" 1 (by decide) (by decide) (by decide) (by decide)⟩

/-- Counterexample to claim C1 as stated: flipping one byte of the genesis
payload (`ERASH` → `FRASH`, stored `block_hash` unchanged) leaves
`verify_chain` true at every index — the walk never recomputes the genesis
hash — even though the genesis block's recomputed hash no longer matches
its stored hash. -/
theorem verify_chain_misses_genesis_tamper :
    tamperData exBlocks 0 (BlockData.genesis "FRASH Ledger Genesis Block")
      ≠ exBlocks ∧
    ((tamperData exBlocks 0
        (BlockData.genesis "FRASH Ledger Genesis Block")).getD 0 default).block_hash
      = (exBlocks.getD 0 default).block_hash ∧
    calculateBlockHash encodeContent
        ((tamperData exBlocks 0
          (BlockData.genesis "FRASH Ledger Genesis Block")).getD 0 default)
      ≠ ((tamperData exBlocks 0
          (BlockData.genesis "FRASH Ledger Genesis Block")).getD 0 default).block_hash ∧
    verifyChainIntegrity encodeContent
      (tamperData exBlocks 0 (BlockData.genesis "FRASH Ledger Genesis Block")) 0
      = true ∧
    verifyChainIntegrity encodeContent
      (tamperData exBlocks 0 (BlockData.genesis "FRASH Ledger Genesis Block")) 1
      = true := by
  decide

/-- Claim C2: appending an erasure record to a nonempty ledger satisfying
the chain invariant produces a new last block whose `index` is the previous
length, whose `previous_hash` is the previous last block's stored
`block_hash`, and whose `block_hash` is the digest of the canonical form of
its own fields minus `block_hash`; the invariant (with contiguous indices)
is preserved, and it holds for every ledger reachable by `init` followed by
appends. -/
theorem append_extends_chain (H : BlockContent → String)
    (Hs : String → String) (l : List Block) (cd : CertData)
    (wr : WipeReport) (di : DeviceInfo) (now : String)
    (hne : l ≠ []) (hinv : chainInvariant H l) :
    (recordLocalErasure H Hs l cd wr di now).2.1.block_index = l.length ∧
    (recordLocalErasure H Hs l cd wr di now).2.1.previous_hash
      = (l.getLast hne).block_hash ∧
    (recordLocalErasure H Hs l cd wr di now).2.1.block_hash
      = calculateBlockHash H (recordLocalErasure H Hs l cd wr di now).2.1 ∧
    (recordLocalErasure H Hs l cd wr di now).1
      = l ++ [(recordLocalErasure H Hs l cd wr di now).2.1] ∧
    chainInvariant H (recordLocalErasure H Hs l cd wr di now).1 ∧
    (∀ g inputs, chainInvariant H (buildLedger H Hs g inputs)) :=
  ⟨record_block_index H Hs l cd wr di now,
   record_previous_hash H Hs l cd wr di now hne,
   record_block_hash H Hs l cd wr di now,
   recordLocalErasure_fst H Hs l cd wr di now,
   chainInvariant_record H Hs l cd wr di now hne hinv,
   fun g inputs => (chainInvariant_buildLedger H Hs g inputs).1⟩

/-- Witness for `append_extends_chain` at the concrete two-block ledger. -/
theorem append_extends_chain_witness :
    (recordLocalErasure encodeContent (fun s => s) exBlocks
      exInput.certificate_data exReport exDevice "T2").2.1.block_index
      = exBlocks.length ∧
    (recordLocalErasure encodeContent (fun s => s) exBlocks
      exInput.certificate_data exReport exDevice "T2").2.1.previous_hash
      = (exBlocks.getLast (by decide)).block_hash ∧
    (recordLocalErasure encodeContent (fun s => s) exBlocks
      exInput.certificate_data exReport exDevice "T2").2.1.block_hash
      = calculateBlockHash encodeContent
        (recordLocalErasure encodeContent (fun s => s) exBlocks
          exInput.certificate_data exReport exDevice "T2").2.1 ∧
    (recordLocalErasure encodeContent (fun s => s) exBlocks
      exInput.certificate_data exReport exDevice "T2").1
      = exBlocks ++ [(recordLocalErasure encodeContent (fun s => s) exBlocks
          exInput.certificate_data exReport exDevice "T2").2.1] ∧
    chainInvariant encodeContent
      (recordLocalErasure encodeContent (fun s => s) exBlocks
        exInput.certificate_data exReport exDevice "T2").1 ∧
    (∀ g inputs, chainInvariant encodeContent
      (buildLedger encodeContent (fun s => s) g inputs)) :=
  append_extends_chain encodeContent (fun s => s) exBlocks
    exInput.certificate_data exReport exDevice "T2" (by decide) (by decide)

/-! ## Claim C4: verification filter/selection helpers -/

lemma blocks_pairwise_of_contiguous (l : List Block)
    (hidx : ∀ i (h : i < l.length), (l.get ⟨i, h⟩).block_index = i) :
    l.Pairwise (fun a b => a.block_index < b.block_index) := by
  rw [List.pairwise_iff_get]
  intro i j hij
  rw [hidx i.1 i.2, hidx j.1 j.2]
  exact hij

lemma pairwise_getLast_max (l : List Block)
    (hp : l.Pairwise (fun a b => a.block_index < b.block_index))
    (b : Block) (hb : l.getLast? = some b) :
    ∀ x ∈ l, x.block_index ≤ b.block_index := by
  intro x hx
  have hne : l ≠ [] := by
    rintro rfl; simp at hb
  have hbl : b = l.getLast hne := by
    have := List.getLast?_eq_getLast l hne
    rw [hb] at this
    exact (Option.some.injEq _ _ ▸ this : _)
  have hget : ∃ i : Fin l.length, l.get i = x := List.mem_iff_get.mp hx
  obtain ⟨i, hi⟩ := hget
  have hlast : l.getLast hne = l.get ⟨l.length - 1, by
      have : 0 < l.length := List.length_pos.mpr hne
      omega⟩ := List.getLast_eq_getElem l hne
  rcases Nat.lt_or_ge i.1 (l.length - 1) with hlt | hge
  · have := List.pairwise_iff_get.mp hp i ⟨l.length - 1, by omega⟩ hlt
    rw [hi, ← hlast, ← hbl] at this
    exact Nat.le_of_lt this
  · have hieq : i.1 = l.length - 1 := by
      have := i.2; omega
    have : l.get i = b := by
      rw [hbl, hlast]
      congr 1
      exact Fin.ext hieq
    rw [← hi, this]

/-- Claim C4: with at least one truthy filter, verification scans exactly
the erasure-certificate blocks matching all provided filters (falsy fields
match anything); with no match it reports `found = false`, `NOT_FOUND`;
with matches it reports on the last match in block order — the one of
highest `block_index` whenever indices are contiguous — and its status is
`VALID` exactly when that block's stored hash equals its recomputed hash
and the chain up to its index verifies; a request whose three fields are
all falsy is rejected with the validation error. -/
theorem verify_selects_latest_match (H : BlockContent → String)
    (ledger : Ledger) (cid sn ch : Option String)
    (hidx : ∀ i (h : i < ledger.blocks.length),
      (ledger.blocks.get ⟨i, h⟩).block_index = i) :
    ((truthy cid || truthy sn || truthy ch) = false →
      verifyCertificateEndpoint H (some ledger) cid sn ch
        = VerifyResponse.badRequest
          "At least one verification parameter required (certificate_id, serial_number, or certificate_hash)") ∧
    ((truthy cid || truthy sn || truthy ch) = true →
      verifyCertificateEndpoint H (some ledger) cid sn ch
        = VerifyResponse.ok (verifyLocalCertificate H (some ledger) cid sn ch)) ∧
    (∀ b ∈ ledger.blocks.filter (blockMatches cid sn ch),
      blockMatches cid sn ch b = true ∧ b ∈ ledger.blocks) ∧
    (∀ b ∈ ledger.blocks, blockMatches cid sn ch b = true →
      b ∈ ledger.blocks.filter (blockMatches cid sn ch)) ∧
    (ledger.blocks.filter (blockMatches cid sn ch) = [] →
      verifyLocalCertificate H (some ledger) cid sn ch
        = VerifyResult.notFound) ∧
    (∀ b, (ledger.blocks.filter (blockMatches cid sn ch)).getLast? = some b →
      (verifyLocalCertificate H (some ledger) cid sn ch).foundFlag = true ∧
      (verifyLocalCertificate H (some ledger) cid sn ch).blockIndex
        = some b.block_index ∧
      (∀ x ∈ ledger.blocks.filter (blockMatches cid sn ch),
        x.block_index ≤ b.block_index) ∧
      ((verifyLocalCertificate H (some ledger) cid sn ch).statusStr = "VALID"
        ↔ (b.block_hash = calculateBlockHash H b ∧
           verifyChainIntegrity H ledger.blocks b.block_index = true))) := by
  refine ⟨?_, ?_, ?_, ?_, ?_, ?_⟩
  · intro hcond
    rw [verifyCertificateEndpoint, hcond]
    rfl
  · intro hcond
    rw [verifyCertificateEndpoint, hcond]
    rfl
  · intro b hb
    exact ⟨(List.mem_filter.mp hb).2, (List.mem_filter.mp hb).1⟩
  · intro b hb hm
    exact List.mem_filter.mpr ⟨hb, hm⟩
  · intro hnil
    rw [verifyLocalCertificate, hnil]
    rfl
  · intro b hb
    have hrw : verifyLocalCertificate H (some ledger) cid sn ch
        = VerifyResult.found
          { integrity_valid := b.block_hash == calculateBlockHash H b
            chain_valid := verifyChainIntegrity H ledger.blocks b.block_index
            block_index := b.block_index
            block_hash := b.block_hash
            timestamp := b.timestamp
            transaction_id := b.transaction_id.getD "N/A"
            certificate_data := b.data }
          (if (b.block_hash == calculateBlockHash H b)
              && verifyChainIntegrity H ledger.blocks b.block_index
           then "VALID" else "INVALID") := by
      rw [verifyLocalCertificate, hb]
    refine ⟨by rw [hrw]; rfl, by rw [hrw]; rfl, ?_, ?_⟩
    · exact pairwise_getLast_max _
        (List.Pairwise.sublist (List.filter_sublist ledger.blocks)
          (blocks_pairwise_of_contiguous ledger.blocks hidx)) b hb
    · have hstr : ("INVALID" : String) ≠ "VALID" := by decide
      rw [hrw]
      simp only [VerifyResult.statusStr, beq_iff_eq]
      by_cases hiv : b.block_hash = calculateBlockHash H b
      · by_cases hcv : verifyChainIntegrity H ledger.blocks b.block_index = true
        · simp [hiv, hcv]
        · simp [hiv, hcv, hstr]
      · simp [hiv, hstr]

/-- Witness for `verify_selects_latest_match`: on the concrete ledger, the
lookup by certificate id finds the certificate block and reports VALID. -/
theorem verify_selects_latest_match_witness :
    (verifyLocalCertificate encodeContent (some exLedger)
      (some "CERTID1") none none).foundFlag = true ∧
    (verifyLocalCertificate encodeContent (some exLedger)
      (some "CERTID1") none none).statusStr = "VALID" := by
  have h := verify_selects_latest_match encodeContent exLedger
    (some "CERTID1") none none (by decide)
  have hlast := h.2.2.2.2.2 ((exLedger.blocks.filter
      (blockMatches (some "CERTID1") none none)).getLast (by decide))
    (List.getLast?_eq_getLast _ (by decide))
  exact ⟨hlast.1, hlast.2.2.2.mpr (by decide)⟩

/-- Claim C3: initialization with no existing ledger creates exactly one
block — the genesis block, `index` 0, `previous_hash` the 64-character
all-zero sentinel, stored `block_hash` equal to the recomputed hash of its
own content — while initialization over any existing ledger returns it
unchanged. -/
theorem init_creates_genesis_once (H : BlockContent → String)
    (t₁ t₂ : String) :
    (initializeLocalLedger H t₁ t₂ none).blocks = [createGenesisBlock H t₂] ∧
    (createGenesisBlock H t₂).block_index = 0 ∧
    (createGenesisBlock H t₂).previous_hash = zeroSentinel ∧
    zeroSentinel.data = List.replicate 64 '0' ∧
    (createGenesisBlock H t₂).block_hash
      = calculateBlockHash H (createGenesisBlock H t₂) ∧
    (∀ l, initializeLocalLedger H t₁ t₂ (some l) = l) :=
  ⟨rfl, rfl, rfl, rfl, rfl, fun _ => rfl⟩

/-! ## Claim C5: start conflict check -/

/-- Claim C5 evaluated at the failing input: the only job for `/dev/sdX`
is `completed` — not `starting` or `running` — yet `start_wipe` for the
same device still reports the conflict (`wipe_id = None`) and creates no
record, because the duplicate-device check scans every record of
`active_wipes` regardless of status and records are never removed. -/
theorem start_rejects_after_terminal_job :
    (∀ p ∈ exRegistryDone,
      p.2.status ≠ "starting" ∧ p.2.status ≠ "running") ∧
    (startWipe exRegistryDone "wipe_2" "/dev/sdX" "dodshort" "t2" true).2
      = none ∧
    (startWipe exRegistryDone "wipe_2" "/dev/sdX" "dodshort" "t2" true).1
      = exRegistryDone ∧
    (startWipe exRegistryDone "wipe_2" "/dev/sdY" "dodshort" "t2" true).2
      = some "wipe_2" := by
  decide

/-! ## Claim C8: terminal failure update -/

/-- Claim C8 evaluated at the failing input: the `failed` terminal update
(as issued by `_run_wipe` on an execution fault) sets `status` and `error`
but leaves `end_time` unset — `_update_wipe_status` assigns `end_time` only
when the new status is `completed`, as the contrasting conjunct shows. -/
theorem failed_update_skips_end_time :
    ((lookupJob (updateWipeStatus exRegistryRunning "w" "failed" none none
        (some "boom") "t9") "w").map (·.status)) = some "failed" ∧
    ((lookupJob (updateWipeStatus exRegistryRunning "w" "failed" none none
        (some "boom") "t9") "w").map (·.error)) = some (some "boom") ∧
    ((lookupJob (updateWipeStatus exRegistryRunning "w" "failed" none none
        (some "boom") "t9") "w").map (·.end_time)) = some none ∧
    ((lookupJob (updateWipeStatus exRegistryRunning "w" "completed" (some 100)
        none none "t9") "w").map (·.end_time)) = some (some "t9") := by
  decide

/-! ## Claim C6: certificate recording flow -/

/-- Claim C6 (amended): when recording is requested, exactly one block is
appended, and its payload carries the id and hash of the certificate
generated **before** the append (at `t₁`); the certificate handed back to
the caller is regenerated afterwards (at `t₂`), so its id and hash agree
with the ledger payload only when the two generation instants produce the
same id — as they do when `t₁ = t₂`.  Without recording no block is
appended. -/
theorem cert_record_flow (H : BlockContent → String) (Hs : String → String)
    (Hc : CertHashInput → String) (blocks : List Block) (wr : WipeReport)
    (di : DeviceInfo) (t₁ tRec t₂ : String) :
    ((generateCertificateEndpoint H Hs Hc blocks wr di true t₁ tRec t₂).2).length
      = blocks.length + 1 ∧
    ((generateCertificateEndpoint H Hs Hc blocks wr di true t₁ tRec t₂).2.getLast?.bind
      (fun b => b.data.certIdOf)) = some (generateCertId Hs di wr t₁) ∧
    ((generateCertificateEndpoint H Hs Hc blocks wr di true t₁ tRec t₂).2.getLast?.bind
      (fun b => b.data.certHashOf))
      = some (Hc ⟨di, wr, generateCertId Hs di wr t₁⟩) ∧
    (generateCertificateEndpoint H Hs Hc blocks wr di true t₁ tRec t₂).1.1.certificate_id
      = generateCertId Hs di wr t₂ ∧
    (generateCertificateEndpoint H Hs Hc blocks wr di true t₁ tRec t₂).1.1.certificate_hash
      = Hc ⟨di, wr, generateCertId Hs di wr t₂⟩ ∧
    (t₁ = t₂ →
      (generateCertificateEndpoint H Hs Hc blocks wr di true t₁ tRec t₂).1.1.certificate_id
        = generateCertId Hs di wr t₁ ∧
      (generateCertificateEndpoint H Hs Hc blocks wr di true t₁ tRec t₂).1.1.certificate_hash
        = Hc ⟨di, wr, generateCertId Hs di wr t₁⟩) ∧
    (generateCertificateEndpoint H Hs Hc blocks wr di false t₁ tRec t₂).2
      = blocks := by
  refine ⟨?_, ?_, ?_, rfl, rfl, ?_, rfl⟩
  · simp [generateCertificateEndpoint, recordLocalErasure]
  · simp [generateCertificateEndpoint, recordLocalErasure, generateCertificate,
      blockOfContent, BlockData.certIdOf, List.getLast?_concat]
  · simp [generateCertificateEndpoint, recordLocalErasure, generateCertificate,
      blockOfContent, BlockData.certHashOf, List.getLast?_concat]
  · intro h
    subst h
    exact ⟨rfl, rfl⟩

/-- Witness for `cert_record_flow` at concrete inputs with `t₁ = t₂`. -/
theorem cert_record_flow_witness :
    (generateCertificateEndpoint encodeContent (fun s => s)
      (fun i => "HASH(" ++ i.cert_id ++ ")") exBlocks exReport exDevice true
      "TA" "TR" "TA").1.1.certificate_id
      = generateCertId (fun s => s) exDevice exReport "TA" ∧
    ((generateCertificateEndpoint encodeContent (fun s => s)
      (fun i => "HASH(" ++ i.cert_id ++ ")") exBlocks exReport exDevice true
      "TA" "TR" "TA").2).length = exBlocks.length + 1 := by
  have h := cert_record_flow encodeContent (fun s => s)
    (fun i => "HASH(" ++ i.cert_id ++ ")") exBlocks exReport exDevice
    "TA" "TR" "TA"
  exact ⟨(h.2.2.2.2.2.1 rfl).1, h.1⟩

/-- Counterexample to claim C6 as stated: with distinct generation instants
(`TA` for the recorded certificate, `TB` for the returned one) the
certificate handed back carries a different `certificate_id` and
`certificate_hash` than the payload of the block appended by the same
call. -/
theorem cert_record_flow_counterexample :
    ((generateCertificateEndpoint encodeContent (fun s => s)
        (fun i => "HASH(" ++ i.cert_id ++ ")") exBlocks exReport exDevice true
        "TA" "TR" "TB").2.getLast?.bind (fun b => b.data.certIdOf))
      = some "SER1_W1_TA" ∧
    ((generateCertificateEndpoint encodeContent (fun s => s)
        (fun i => "HASH(" ++ i.cert_id ++ ")") exBlocks exReport exDevice true
        "TA" "TR" "TB").2.getLast?.bind (fun b => b.data.certHashOf))
      = some "HASH(SER1_W1_TA)" ∧
    (generateCertificateEndpoint encodeContent (fun s => s)
        (fun i => "HASH(" ++ i.cert_id ++ ")") exBlocks exReport exDevice true
        "TA" "TR" "TB").1.1.certificate_id = "SER1_W1_TB" ∧
    (generateCertificateEndpoint encodeContent (fun s => s)
        (fun i => "HASH(" ++ i.cert_id ++ ")") exBlocks exReport exDevice true
        "TA" "TR" "TB").1.1.certificate_hash = "HASH(SER1_W1_TB)" ∧
    some (generateCertificateEndpoint encodeContent (fun s => s)
        (fun i => "HASH(" ++ i.cert_id ++ ")") exBlocks exReport exDevice true
        "TA" "TR" "TB").1.1.certificate_id
      ≠ ((generateCertificateEndpoint encodeContent (fun s => s)
        (fun i => "HASH(" ++ i.cert_id ++ ")") exBlocks exReport exDevice true
        "TA" "TR" "TB").2.getLast?.bind (fun b => b.data.certIdOf)) ∧
    some (generateCertificateEndpoint encodeContent (fun s => s)
        (fun i => "HASH(" ++ i.cert_id ++ ")") exBlocks exReport exDevice true
        "TA" "TR" "TB").1.1.certificate_hash
      ≠ ((generateCertificateEndpoint encodeContent (fun s => s)
        (fun i => "HASH(" ++ i.cert_id ++ ")") exBlocks exReport exDevice true
        "TA" "TR" "TB").2.getLast?.bind (fun b => b.data.certHashOf)) := by
  decide

/-! ## Registry update lemmas (C7, C9) -/

lemma applyJobChange_fields (s : String) (pr : Option Nat)
    (log err : Option String) (now : String) (j : JobRecord) :
    (applyJobChange s pr log err now j).status = s ∧
    (applyJobChange s pr log err now j).logs
      = j.logs ++ (if truthy log then [⟨now, log.getD ""⟩] else []) ∧
    (applyJobChange s pr log err now j).progress = pr.getD j.progress ∧
    (applyJobChange s pr log err now j).end_time
      = (if s == "completed" then some now else j.end_time) := by
  unfold applyJobChange
  cases pr <;> by_cases hl : truthy log <;> by_cases he : truthy err <;>
    by_cases hc : (s == "completed") <;> simp [hl, he, hc, Option.getD]

lemma lookupJob_updateWipeStatus_self (reg : Registry)
    (id s : String) (pr : Option Nat) (log err : Option String)
    (now : String) :
    lookupJob (updateWipeStatus reg id s pr log err now) id
      = (lookupJob reg id).map (applyJobChange s pr log err now) := by
  induction reg with
  | nil => rfl
  | cons p t ih =>
    by_cases hp : (p.1 == id)
    · simp [updateWipeStatus, lookupJob, hp]
    · simpa [updateWipeStatus, lookupJob, hp] using ih

lemma lookupJob_applyChanges (cs : List WipeChange) (reg : Registry)
    (id : String) :
    lookupJob (applyChanges reg id cs) id
      = (lookupJob reg id).map (fun j =>
          cs.foldl (fun a c =>
            applyJobChange c.status c.progress c.log c.error c.now a) j) := by
  induction cs generalizing reg with
  | nil =>
    unfold applyChanges
    simp
  | cons c t ih =>
    unfold applyChanges at ih ⊢
    simp only [List.foldl_cons]
    rw [ih, lookupJob_updateWipeStatus_self, Option.map_map]
    rfl

lemma foldl_applyJobChange_logs (cs : List WipeChange) (j : JobRecord) :
    (cs.foldl (fun a c =>
      applyJobChange c.status c.progress c.log c.error c.now a) j).logs
      = j.logs ++ addedLogs cs := by
  induction cs generalizing j with
  | nil => simp [addedLogs]
  | cons c t ih =>
    simp only [List.foldl_cons]
    rw [ih, (applyJobChange_fields c.status c.progress c.log c.error c.now j).2.1]
    unfold addedLogs
    rw [List.filterMap_cons]
    by_cases ht : truthy c.log <;> simp [ht]

lemma jobLogs_applyChanges (reg : Registry) (id : String)
    (cs : List WipeChange) (j : JobRecord)
    (h : lookupJob reg id = some j) :
    jobLogs (applyChanges reg id cs) id = j.logs ++ addedLogs cs := by
  unfold jobLogs
  rw [lookupJob_applyChanges, h]
  simp [foldl_applyJobChange_logs]

lemma filterMap_of_all_some {α β : Type} (f : α → Option β) (g : α → β)
    (l : List α) (h : ∀ a ∈ l, f a = some (g a)) :
    l.filterMap f = l.map g := by
  induction l with
  | nil => rfl
  | cons a t ih =>
    rw [List.filterMap_cons, h a (List.mem_cons_self a t), List.map_cons,
      ih (fun x hx => h x (List.mem_cons_of_mem a hx))]

lemma string_append_ne_empty_left (a b : String) (ha : a.data ≠ []) :
    a ++ b ≠ "" := by
  intro hcontra
  apply ha
  have hdata : (a ++ b).data = [] := by rw [hcontra]
  rw [String.data_append] at hdata
  exact (List.append_eq_nil.mp hdata).1

lemma simulatedStages_all_nonempty (d m : String) :
    ∀ s ∈ simulatedStages d m, s ≠ "" := by
  intro s hs
  have hdev : "Target device: " ++ d ≠ "" :=
    string_append_ne_empty_left _ _ (by decide)
  have hmet : "Method: " ++ m ≠ "" :=
    string_append_ne_empty_left _ _ (by decide)
  have hera : "Device " ++ d ++ " has been securely erased." ≠ "" :=
    string_append_ne_empty_left ("Device " ++ d) _
      (by rw [String.data_append]; intro hc
          exact absurd (List.append_eq_nil.mp hc).1 (by decide))
  simp only [simulatedStages, List.mem_cons, List.not_mem_nil, or_false] at hs
  rcases hs with h | h | h | h | h | h | h | h | h | h | h | h | h | h | h | h | h | h <;>
    subst h <;>
    first
      | exact hdev
      | exact hmet
      | exact hera
      | decide

lemma addedLogs_simulatedChanges (d m : String) (now : Nat → String) :
    addedLogs (simulatedChanges d m now)
      = (simulatedStages d m).enum.map
          (fun p => (⟨now p.1, p.2⟩ : LogEntry)) := by
  unfold addedLogs simulatedChanges
  rw [List.filterMap_append, List.filterMap_map]
  have hlast : List.filterMap
      (fun (c : WipeChange) =>
        if truthy c.log then some (⟨c.now, c.log.getD ""⟩ : LogEntry) else none)
      [{ status := "completed", progress := some 100, log := none, error := none,
         now := now (simulatedStages d m).length }] = [] := rfl
  rw [hlast, List.append_nil]
  apply filterMap_of_all_some
  intro p hp
  have hmem : p.2 ∈ simulatedStages d m := by
    have := List.mem_enum_iff_get?.mp hp
    exact List.get?_mem this
  have hne : p.2 ≠ "" := simulatedStages_all_nonempty d m p.2 hmem
  have htr : truthy (some p.2) = true := by
    simp [truthy, hne]
  simp [Function.comp, htr]

/-! ## Claim C9: scripted logs and gap-free polling -/

/-- Claim C9: the simulated run appends exactly the fixed 18-line scripted
sequence to the job's log; `get_wipe_logs` hands back exactly the entries
from `since_index` on together with the total count (so what a poller
already holds plus the response is always the full current log); and across
any two observation points `a ≤ b` of the run, polling at `b` with
`since = ` (count seen at `a`) returns exactly the missing segment — so a
poller that always passes the last `total_count` it saw reproduces the log
with no duplicate and no gap. -/
theorem simulated_logs_gap_free (reg : Registry) (id d m : String)
    (now : Nat → String) (j : JobRecord)
    (h : lookupJob reg id = some j) :
    (simulatedStages d m).length = 18 ∧
    jobLogs (runSimulatedWipe reg id d m now) id
      = j.logs ++ (simulatedStages d m).enum.map
          (fun p => (⟨now p.1, p.2⟩ : LogEntry)) ∧
    (jobLogs (runSimulatedWipe reg id d m now) id).length
      = j.logs.length + 18 ∧
    (∀ (reg' : Registry) (j' : JobRecord), lookupJob reg' id = some j' →
      ∀ since, getWipeLogs reg' id since
          = some (j'.logs.drop since, j'.logs.length, j'.status, j'.progress) ∧
        j'.logs.take since ++ j'.logs.drop since = j'.logs) ∧
    (∀ a b : Nat, a ≤ b →
      jobLogs (stateAfter reg id d m now a) id ++
          ((jobLogs (stateAfter reg id d m now b) id).drop
            ((jobLogs (stateAfter reg id d m now a) id).length))
        = jobLogs (stateAfter reg id d m now b) id ∧
      (getWipeLogs (stateAfter reg id d m now b) id
          ((jobLogs (stateAfter reg id d m now a) id).length)).map (·.1)
        = some ((jobLogs (stateAfter reg id d m now b) id).drop
            ((jobLogs (stateAfter reg id d m now a) id).length))) := by
  have hlogs : ∀ k, jobLogs (stateAfter reg id d m now k) id
      = j.logs ++ addedLogs ((simulatedChanges d m now).take k) := by
    intro k
    exact jobLogs_applyChanges reg id _ j h
  refine ⟨rfl, ?_, ?_, ?_, ?_⟩
  · rw [runSimulatedWipe, jobLogs_applyChanges reg id _ j h,
      addedLogs_simulatedChanges]
  · rw [runSimulatedWipe, jobLogs_applyChanges reg id _ j h,
      addedLogs_simulatedChanges]
    simp only [List.length_append, List.length_map, List.enum_length]
    rfl
  · intro reg' j' h' since
    refine ⟨?_, List.take_append_drop since j'.logs⟩
    rw [getWipeLogs, h']
  · intro a b hab
    -- the state at `b` continues the state at `a` with the updates between
    have hsplit : (simulatedChanges d m now).take b
        = (simulatedChanges d m now).take a ++
          (((simulatedChanges d m now).drop a).take (b - a)) := by
      have hsum : b = a + (b - a) := by omega
      conv_lhs => rw [hsum]
      rw [List.take_add]
    have hb : jobLogs (stateAfter reg id d m now b) id
        = jobLogs (stateAfter reg id d m now a) id ++
          addedLogs (((simulatedChanges d m now).drop a).take (b - a)) := by
      rw [hlogs a, hlogs b, hsplit]
      unfold addedLogs
      rw [List.filterMap_append, List.append_assoc]
    constructor
    · rw [hb, List.drop_left]
    · have hlook : lookupJob (stateAfter reg id d m now b) id
          = some ((((simulatedChanges d m now).take b)).foldl
            (fun a c =>
              applyJobChange c.status c.progress c.log c.error c.now a) j) := by
        rw [stateAfter, lookupJob_applyChanges, h]
        rfl
      rw [getWipeLogs, hlook]
      simp only [Option.map_some]
      have : (((simulatedChanges d m now).take b).foldl
          (fun a c =>
            applyJobChange c.status c.progress c.log c.error c.now a) j).logs
          = jobLogs (stateAfter reg id d m now b) id := by
        rw [hlogs b, foldl_applyJobChange_logs]
      rw [this]
      rfl

/-! ## Claim C7: simulated progress sequence -/

/-- Counterexample to claim C7 as stated: the progress values the simulated
worker stores are not monotone — after stage 4 ("Pass 1/3", fallback value
`int((4/18)*100) = 22`) stage 5 parses "Progress: 10%" and stores 10. -/
theorem simulated_progress_not_monotone :
    (progressTrace "/dev/sda" "dodshort").get? 4 = some 22 ∧
    (progressTrace "/dev/sda" "dodshort").get? 5 = some 10 ∧
    nondecreasing (progressTrace "/dev/sda" "dodshort") = false := by
  decide

/-- Claim C7 (amended): for a simulated run whose device path and method do
not themselves contain the `Progress:` marker, the stored progress values
are exactly the scripted sequence
`[0,5,11,16,22,10,25,40,44,50,65,75,66,85,95,100,88,100,100]` — integers
between 0 and 100, ending at 100 — and the job ends with `progress = 100`
and `status = completed`; but the sequence is **not** monotonically
non-decreasing (see the counterexample). -/
theorem simulated_progress_bounded (d m : String) (now : Nat → String)
    (h1 : suffixAfter ("Progress:".data) (("Target device: " ++ d).data) = none)
    (h2 : suffixAfter ("Progress:".data) (("Method: " ++ m).data) = none)
    (h3 : suffixAfter ("Progress:".data)
      (("Device " ++ d ++ " has been securely erased.").data) = none) :
    progressTrace d m
      = [0, 5, 11, 16, 22, 10, 25, 40, 44, 50, 65, 75, 66, 85, 95, 100, 88, 100, 100] ∧
    (∀ p ∈ progressTrace d m, p ≤ 100) ∧
    (progressTrace d m).getLast? = some 100 ∧
    (∀ (reg : Registry) (id : String) (j : JobRecord),
      lookupJob reg id = some j →
      (lookupJob (runSimulatedWipe reg id d m now) id).map (·.progress)
        = some 100 ∧
      (lookupJob (runSimulatedWipe reg id d m now) id).map (·.status)
        = some "completed") := by
  have hlen : (simulatedStages d m).length = 18 := rfl
  have e1 : stageProgress 18 1 ("Target device: " ++ d) = 5 := by
    unfold stageProgress
    rw [h1]
    rfl
  have e2 : stageProgress 18 2 ("Method: " ++ m) = 11 := by
    unfold stageProgress
    rw [h2]
    rfl
  have e3 : stageProgress 18 17
      ("Device " ++ d ++ " has been securely erased.") = 100 := by
    unfold stageProgress
    rw [h3]
    rfl
  have htr : progressTrace d m
      = [0, 5, 11, 16, 22, 10, 25, 40, 44, 50, 65, 75, 66, 85, 95, 100, 88, 100, 100] := by
    unfold progressTrace simulatedChanges
    rw [List.filterMap_append, List.filterMap_map]
    have hmain : List.filterMap
        ((fun (c : WipeChange) => c.progress) ∘ fun p =>
          ({ status := "running"
             progress := some (stageProgress (simulatedStages d m).length p.1 p.2)
             log := some p.2
             error := none
             now := (fun _ => "") p.1 } : WipeChange))
        (simulatedStages d m).enum
        = (simulatedStages d m).enum.map
          (fun p => stageProgress (simulatedStages d m).length p.1 p.2) := by
      apply filterMap_of_all_some
      intro p _
      rfl
    rw [hmain]
    have hfin : List.filterMap (fun (c : WipeChange) => c.progress)
        [{ status := "completed", progress := some 100, log := none,
           error := none, now := (fun _ => "") (simulatedStages d m).length }]
        = [100] := rfl
    rw [hfin]
    simp only [hlen]
    simp only [simulatedStages, List.enum, List.enumFrom, List.map_cons,
      List.map_nil, List.cons_append, List.nil_append, Nat.reduceAdd]
    rw [e1, e2, e3]
    decide
  refine ⟨htr, ?_, ?_, ?_⟩
  · rw [htr]
    decide
  · rw [htr]
    decide
  · intro reg id j h
    rw [runSimulatedWipe, lookupJob_applyChanges, h]
    simp only [Option.map_some']
    unfold simulatedChanges
    rw [List.foldl_append]
    simp only [List.foldl_cons, List.foldl_nil]
    constructor
    · exact congrArg some
        (((applyJobChange_fields _ _ _ _ _ _).2.2.1).trans rfl)
    · exact congrArg some ((applyJobChange_fields _ _ _ _ _ _).1)

/-- Witness for `simulated_progress_bounded` at `/dev/sda`, `dodshort`. -/
theorem simulated_progress_bounded_witness :
    progressTrace "/dev/sda" "dodshort"
      = [0, 5, 11, 16, 22, 10, 25, 40, 44, 50, 65, 75, 66, 85, 95, 100, 88, 100, 100] ∧
    (progressTrace "/dev/sda" "dodshort").getLast? = some 100 := by
  have h := simulated_progress_bounded "/dev/sda" "dodshort" (fun _ => "ts")
    (by decide) (by decide) (by decide)
  exact ⟨h.1, h.2.2.1⟩

/-! ## Claim C10: search by serial -/

/-- Claim C10: a failed ledger read/parse yields the empty list — the same
observable answer as a serial with no records — and on a readable ledger
the result is, in block order, exactly one summary row per
erasure-certificate block whose `device_serial` equals the serial (the
embedding is a pure read: no ledger state is produced or modified). -/
theorem search_by_serial_total (serial : String) :
    searchBySerial none serial = [] ∧
    (∀ ledger : Ledger, searchBySerial (some ledger) serial
      = (ledger.blocks.filter (isCertForSerial serial)).map summaryOf) ∧
    (∀ ledger : Ledger, (searchBySerial (some ledger) serial).length
      = (ledger.blocks.filter (isCertForSerial serial)).length) := by
  have haux : ∀ l : List Block,
      l.filterMap (searchRecordOf serial)
        = (l.filter (isCertForSerial serial)).map summaryOf := by
    intro l
    induction l with
    | nil => rfl
    | cons b t ih =>
      rw [List.filterMap_cons, List.filter_cons]
      cases hd : b.data with
      | genesis msg =>
        simp [searchRecordOf, isCertForSerial, hd, ih]
      | cert ci ch ds dm dt wm ws wst wen sim =>
        by_cases hs : (ds == serial)
        · simp [searchRecordOf, isCertForSerial, summaryOf, hd, hs, ih]
        · simp [searchRecordOf, isCertForSerial, hd, hs, ih]
  refine ⟨rfl, fun ledger => haux ledger.blocks, fun ledger => ?_⟩
  have : searchBySerial (some ledger) serial
      = (ledger.blocks.filter (isCertForSerial serial)).map summaryOf :=
    haux ledger.blocks
  rw [this, List.length_map]

/-- Witness for `simulated_logs_gap_free` at a concrete one-job registry. -/
theorem simulated_logs_gap_free_witness :
    jobLogs (runSimulatedWipe exRegistryRunning "w" "/dev/sda" "dodshort"
        (fun _ => "ts")) "w"
      = (simulatedStages "/dev/sda" "dodshort").enum.map
          (fun p => (⟨"ts", p.2⟩ : LogEntry)) ∧
    (jobLogs (runSimulatedWipe exRegistryRunning "w" "/dev/sda" "dodshort"
        (fun _ => "ts")) "w").length = 18 := by
  have hw := simulated_logs_gap_free exRegistryRunning "w" "/dev/sda"
    "dodshort" (fun _ => "ts")
    (exRegistryRunning.head (by decide)).2 (by decide)
  refine ⟨?_, ?_⟩
  · rw [hw.2.1]
    rfl
  · rw [hw.2.2.1]
    rfl

end Erash
